import Mathlib

/-
Formal model of the capyCRYPT cryptographic core.

Byte-level functions are translated from src/sha3/aux_functions.rs, the XOF
layer and the Message operations from src/ops.rs (with src/model.rs as the
older revision of the same operations).  Bytes are Nat values < 256, byte
buffers are List Nat, big integers (rug::Integer) are Int.  Functions that can
panic in Rust (parameter errors, mismatched XOR lengths, unwrap of a missing
field) return Option, with none for the panic.

The Keccak permutation, the sponge, and the Edwards-curve module are not part
of the repository snapshot; they are modelled from the specification where
noted by a doc comment starting with "Modelled from the spec:".
-/

namespace Capy

/-- Mask keeping the low 64 bits of a lane. -/
def mask64 : Nat := 18446744073709551615

/-- Left rotation of a 64-bit lane by n bits. -/
def rotl (w n : Nat) : Nat := ((w <<< n) ||| (w >>> (64 - n))) &&& mask64

/-- Big-endian bytes of a 64-bit word, as written by write_u64 BigEndian. -/
def beBytes8 (v : Nat) : List Nat := (List.range 8).map fun i => (v >>> (8 * (7 - i))) % 256

/-- Function left_encode from src/sha3/aux_functions.rs lines 45-60: for 0 the
pair [1, 0], otherwise the big-endian bytes with leading zeros removed,
preceded by the count of remaining bytes. -/
def left_encode (value : Nat) : List Nat :=
  if value = 0 then [1, 0]
  else
    let vec := (beBytes8 value).dropWhile fun b => b = 0
    vec.length :: vec

/-- Loop of right_encode (src/sha3/aux_functions.rs lines 74-77): starting from
index 1, advance past zero bytes while the index stays below 8. -/
def reLoop (b : List Nat) (fuel i : Nat) : Nat :=
  match fuel with
  | 0 => i
  | f + 1 => if i < 8 ∧ b.getD i 0 = 0 then reLoop b f (i + 1) else i

/-- Function right_encode from src/sha3/aux_functions.rs lines 69-81: for 0 the
pair [0, 1]; otherwise the big-endian bytes b with b[0] overwritten by 9 - i
and the list truncated to 9 - i bytes, i being the loop result. -/
def right_encode (value : Nat) : List Nat :=
  if value = 0 then [0, 1]
  else
    let b := beBytes8 value
    let i := reLoop b 8 1
    (b.set 0 (9 - i)).take (9 - i)

/-- Function encode_string from src/sha3/aux_functions.rs lines 32-36. -/
def encode_string (s : List Nat) : List Nat := left_encode (s.length * 8) ++ s

/-- Function byte_pad from src/sha3/aux_functions.rs lines 15-22: note that the
Rust code appends w - (len mod w) zero bytes with no special case, so a full
extra block of zeros is appended when the length is already a multiple of w. -/
def byte_pad (input : List Nat) (w : Nat) : List Nat :=
  let z := left_encode w ++ input
  z ++ List.replicate (w - z.length % w) 0

/-- Function xor_bytes from src/sha3/aux_functions.rs lines 98-104: the
assert_eq on the lengths is the none case. -/
def xor_bytes (a b : List Nat) : Option (List Nat) :=
  if a.length = b.length then some (List.zipWith (fun u v => u ^^^ v) a b) else none

/-- Modelled from the spec: bytes_to_big converts a byte buffer to a
nonnegative big integer, big-endian (spec section 2, L0, and section 6: all
integers crossing the boundary are big-endian).  The ops-era byte_utils module
is not in the snapshot. -/
def bytes_to_big (bs : List Nat) : Int := bs.foldl (fun acc b => acc * 256 + b) 0

/-- Helper for big_to_bytes: big-endian digits of a Nat, with enough fuel. -/
def beDigits (fuel n : Nat) : List Nat :=
  match fuel with
  | 0 => []
  | f + 1 => if n = 0 then [] else beDigits f (n / 256) ++ [n % 256]

/-- Modelled from the spec: big_to_bytes is the big-endian, minimal-length
byte encoding of a nonnegative big integer (spec section 3, big integer). -/
def big_to_bytes (v : Int) : List Nat := beDigits v.toNat v.toNat

/-- Modelled from the spec: get_random_bytes draws n bytes from the platform
random source (spec section 6, random_bytes).  The source is an explicit
parameter rng; src/sha3/aux_functions.rs lines 91-95 fixes the count at 512
bytes, and src/ops.rs calls it with argument 512. -/
def get_random_bytes (rng : Nat → Nat) (n : Nat) : List Nat :=
  (List.range n).map fun i => rng i % 256

/-- Rho rotation offsets of Keccak-f[1600] for flat lane index x + 5y, given
as a function on the index (FIPS 202 reference values). -/
def rhoOff (i : Nat) : Nat :=
  match i with
  | 0 => 0
  | 1 => 1
  | 2 => 62
  | 3 => 28
  | 4 => 27
  | 5 => 36
  | 6 => 44
  | 7 => 6
  | 8 => 55
  | 9 => 20
  | 10 => 3
  | 11 => 10
  | 12 => 43
  | 13 => 25
  | 14 => 39
  | 15 => 41
  | 16 => 45
  | 17 => 15
  | 18 => 21
  | 19 => 8
  | 20 => 18
  | 21 => 2
  | 22 => 61
  | 23 => 56
  | _ => 14

/-- Round constants of Keccak-f[1600] (FIPS 202). -/
def RC : List Nat :=
  [ 1, 32898, 9223372036854808714, 9223372039002292224, 32907, 2147483649,
   9223372039002292353, 9223372036854808585, 138, 136, 2147516425, 2147483658,
   2147516555, 9223372036854775947, 9223372036854808713, 9223372036854808579,
   9223372036854808578, 9223372036854775936, 32778, 9223372039002259466,
   9223372039002292353, 9223372036854808704, 2147483649, 9223372039002292232]

/-- Theta step of the permutation; the state is 25 lanes, index x + 5y. -/
def theta (a : List Nat) : List Nat :=
  let c := (List.range 5).map fun x =>
    (a.getD x 0) ^^^ (a.getD (x + 5) 0) ^^^ (a.getD (x + 10) 0) ^^^
      (a.getD (x + 15) 0) ^^^ (a.getD (x + 20) 0)
  let d := (List.range 5).map fun x =>
    (c.getD ((x + 4) % 5) 0) ^^^ rotl (c.getD ((x + 1) % 5) 0) 1
  (List.range 25).map fun i => (a.getD i 0) ^^^ (d.getD (i % 5) 0)

/-- Combined rho and pi steps: lane (x, y) rotates by its offset and moves to
position (y, 2x + 3y mod 5). -/
def rhopi (a : List Nat) : List Nat :=
  (List.range 25).foldl
    (fun b i =>
      let x := i % 5
      let y := i / 5
      b.set (y + 5 * ((2 * x + 3 * y) % 5)) (rotl (a.getD i 0) (rhoOff i)))
    (List.replicate 25 0)

/-- Chi step of the permutation. -/
def chi (b : List Nat) : List Nat :=
  (List.range 25).map fun i =>
    let x := i % 5
    let y := i / 5
    (b.getD i 0) ^^^ (((b.getD ((x + 1) % 5 + 5 * y) 0) ^^^ mask64) &&&
      (b.getD ((x + 2) % 5 + 5 * y) 0))

/-- One round: theta, rho, pi, chi, then iota (XOR of the round constant). -/
def keccakRound (a : List Nat) (rc : Nat) : List Nat :=
  let c := chi (rhopi (theta a))
  c.set 0 ((c.getD 0 0) ^^^ rc)

/-- Modelled from the spec: the standard 24-round Keccak-f[1600] permutation
(spec section 4.2); its source file is not in the snapshot. -/
def keccakf (a : List Nat) : List Nat := RC.foldl keccakRound a

/-- Little-endian bytes of one 64-bit lane (FIPS 202 byte order). -/
def leBytes8 (w : Nat) : List Nat := (List.range 8).map fun i => (w >>> (8 * i)) % 256

/-- Little-endian bytes to one lane. -/
def bytesToLane (bs : List Nat) : Nat := bs.foldr (fun b acc => b + acc * 256) 0

/-- XOR a rate-sized block into the first lanes of the state. -/
def xorIntoState (st block : List Nat) (lanes : Nat) : List Nat :=
  (List.range 25).map fun i =>
    if i < lanes then (st.getD i 0) ^^^ bytesToLane ((block.drop (8 * i)).take 8)
    else st.getD i 0

/-- Modelled from the spec: the 10*1 pad, zero bytes then a final 0x80 byte,
bringing the length to a multiple of rb bytes (spec section 4.2). -/
def padTenOne (m : List Nat) (rb : Nat) : List Nat :=
  let q := rb - m.length % rb
  m ++ List.replicate (q - 1) 0 ++ [0x80]

/-- Absorb nb rate-sized blocks: XOR the block into the state, permute. -/
def absorbBlocks (st m : List Nat) (rb nb : Nat) : List Nat :=
  match nb with
  | 0 => st
  | n + 1 => absorbBlocks (keccakf (xorIntoState st (m.take rb) (rb / 8))) (m.drop rb) rb n

/-- Modelled from the spec: sponge_absorb pads the input with 10*1 when its
length is not a rate multiple, then XORs and permutes block by block starting
from the zero state (spec section 4.2). -/
def sponge_absorb (m : List Nat) (c : Nat) : List Nat :=
  let rb := (1600 - c) / 8
  let p := if m.length % rb = 0 then m else padTenOne m rb
  absorbBlocks (List.replicate 25 0) p rb (p.length / rb)

/-- Bytes of the first lanes of the state, in lane order. -/
def stateBytes (st : List Nat) (lanes : Nat) : List Nat :=
  match lanes with
  | 0 => []
  | n + 1 => stateBytes st n ++ leBytes8 (st.getD n 0)

/-- Emit nb rate-sized blocks, permuting between blocks. -/
def squeezeBlocks (st : List Nat) (nb lanes : Nat) : List Nat :=
  match nb with
  | 0 => []
  | n + 1 => stateBytes st lanes ++ squeezeBlocks (keccakf st) n lanes

/-- Modelled from the spec: sponge_squeeze reads rate-sized blocks, permuting
between reads, until l/8 bytes are available, and truncates to l/8 bytes
(spec section 4.2). -/
def sponge_squeeze (st : List Nat) (l r : Nat) : List Nat :=
  let lanes := r / 64
  let bb := 8 * lanes
  (squeezeBlocks st (l / 8 / bb + 1) lanes).take (l / 8)

/-- Delimiter byte chosen by shake (src/ops.rs lines 46-53): 0x86 when exactly
one byte of padding is needed relative to a 136-byte block, 0x06 otherwise. -/
def shakeDelim (n : List Nat) : Nat := if 136 - n.length % 136 = 1 then 0x86 else 0x06

/-- Function shake from src/ops.rs lines 45-55.  The delimiter is appended to
the caller's buffer in place; the first component is that mutated buffer and
the second the digest. -/
def shake (n : List Nat) (d : Nat) : List Nat × List Nat :=
  let n' := n ++ [shakeDelim n]
  (n', sponge_squeeze (sponge_absorb n' (2 * d)) d (1600 - 2 * d))

/-- ASCII bytes of the function-name string KMAC. -/
def strKMAC : List Nat := [0x4B, 0x4D, 0x41, 0x43]

/-- ASCII bytes of the customization string S. -/
def strS : List Nat := [0x53]

/-- ASCII bytes of the customization string SKA. -/
def strSKA : List Nat := [0x53, 0x4B, 0x41]

/-- ASCII bytes of the customization string SKE. -/
def strSKE : List Nat := [0x53, 0x4B, 0x45]

/-- ASCII bytes of the customization string PK. -/
def strPK : List Nat := [0x50, 0x4B]

/-- ASCII bytes of the customization string PKA. -/
def strPKA : List Nat := [0x50, 0x4B, 0x41]

/-- ASCII bytes of the customization string PKE. -/
def strPKE : List Nat := [0x50, 0x4B, 0x45]

/-- ASCII bytes of the customization string K. -/
def strK : List Nat := [0x4B]

/-- ASCII bytes of the customization string N. -/
def strN : List Nat := [0x4E]

/-- ASCII bytes of the customization string T. -/
def strT : List Nat := [0x54]

/-- Bytepad width selected by the match on d in src/ops.rs lines 76-80 and
107-111; none is the panic for any d other than 256 or 512. -/
def wlookup (d : Nat) : Option Nat :=
  if d = 256 then some 168 else if d = 512 then some 136 else none

/-- Total version of wlookup for the non-panicking cases. -/
def wpar (d : Nat) : Nat := if d = 256 then 168 else 136

/-- Body of cshake (src/ops.rs lines 67-87) once the bytepad width w is known.
When n and s are both empty, shake(x, l) is called for its side effect only
(the Rust code lacks a return there), so execution continues with x extended
in place by the shake delimiter byte. -/
def cshake_core (x : List Nat) (l : Nat) (n s : List Nat) (w d : Nat) : List Nat :=
  let x' := if n = [] ∧ s = [] then x ++ [shakeDelim x] else x
  let enc := encode_string n ++ encode_string s
  sponge_squeeze (sponge_absorb (byte_pad enc w ++ x' ++ [0x04]) d) l (1600 - d)

/-- Function cshake from src/ops.rs lines 67-87; none is the panic on the
bytepad-width match for d outside 256 and 512. -/
def cshake (x : List Nat) (l : Nat) (n s : List Nat) (d : Nat) : Option (List Nat) :=
  (wlookup d).map fun w => cshake_core x l n s w d

/-- Function kmac_xof from src/ops.rs lines 105-117; none is the panic on the
bytepad-width match for d outside 256 and 512. -/
def kmac_xof (k x : List Nat) (l : Nat) (s : List Nat) (d : Nat) : Option (List Nat) :=
  (wlookup d).bind fun w =>
    cshake (byte_pad (encode_string k) w ++ x ++ right_encode 0) l strKMAC s d

/-- Value of kmac_xof on the non-panicking parameters d = 256 and d = 512. -/
def kmacF (k x : List Nat) (l : Nat) (s : List Nat) (d : Nat) : List Nat :=
  cshake_core (byte_pad (encode_string k) (wpar d) ++ x ++ right_encode 0) l strKMAC s
    (wpar d) d

/-- Identifiers of the two supported curves; src/model.rs works on E521 and
src/ops.rs on E448 (the curves module is not in the snapshot). -/
inductive EdCurves where
  | E448
  | E521
deriving DecidableEq, Repr

/-- Modelled from the spec: the subgroup orders r of the two standard curves
E-448 and E-521 (spec sections 1 and 4.4). -/
def order (c : EdCurves) : Int :=
  match c with
  | .E448 => 2 ^ 446 - 13818066809895115352007386748515426880336692474882178609894547503885
  | .E521 => 2 ^ 519 - 337554763258501705789107630418782636071904961214051226618635150085779108655765

/-- Modelled from the spec: a point of the prime-order subgroup generated by
the curve generator G.  The spec states that G has order r and that scalar
multiplication distributes over addition (spec section 8), so the subgroup is
represented by the scalar k with P = k·G, reduced mod r. -/
structure EdCurvePoint where
  curve : EdCurves
  k : Int
deriving DecidableEq, Repr

/-- Subgroup order carried by a point, field r in the source. -/
def EdCurvePoint.r (p : EdCurvePoint) : Int := order p.curve

/-- Modelled from the spec: the x-coordinate datum of a point.  In this
subgroup model a point is its scalar, so the coordinate is represented by
that scalar rather than by the numeric affine field coordinate.  The
representation is adequate exactly where the development uses it: equal
points yield equal coordinate bytes, so kmac keys derived from equal points
agree.  It does not reproduce the concrete coordinate value, so no theorem
below rests on two distinct points having distinct coordinate bytes. -/
def EdCurvePoint.x (p : EdCurvePoint) : Int := p.k

/-- Modelled from the spec: the curve generator, with an optional negation
flag (spec section 4.4); G itself is scalar 1. -/
def generator (c : EdCurves) (negate : Bool) : EdCurvePoint :=
  { curve := c, k := if negate then (-1) % order c else 1 }

/-- Modelled from the spec: scalar multiplication on the subgroup. -/
def pmul (p : EdCurvePoint) (n : Int) : EdCurvePoint :=
  { curve := p.curve, k := (p.k * n) % order p.curve }

/-- Modelled from the spec: point addition on the subgroup. -/
def padd (p q : EdCurvePoint) : EdCurvePoint :=
  { curve := p.curve, k := (p.k + q.k) % order p.curve }

/-- Hardcoded curve of src/ops.rs line 23. -/
def SELECTED_CURVE : EdCurves := EdCurves.E448

/-- Signature record from lib.rs as used by src/ops.rs: the hash h and the
big integer z. -/
structure Signature where
  h : List Nat
  z : Int
deriving DecidableEq, Repr

/-- KeyPair record as constructed in src/ops.rs lines 249-260; the purely
informational date_created string is omitted.  Note that priv_key stores the
passphrase bytes, not the derived scalar. -/
structure KeyPair where
  owner : List Nat
  pub_key : EdCurvePoint
  priv_key : List Nat
  curve : EdCurves
deriving DecidableEq, Repr

/-- Message record from lib.rs as described in spec section 3 and used by
src/ops.rs: data bytes plus optional digest, nonces, signature and result. -/
structure Message where
  msg : List Nat
  digest : Option (List Nat) := none
  sym_nonce : Option (List Nat) := none
  asym_nonce : Option EdCurvePoint := none
  sig : Option Signature := none
  op_result : Option Bool := none
deriving DecidableEq, Repr

/-- Constructor Message::new. -/
def Message.new (m : List Nat) : Message := { msg := m }

/-- Operation compute_sha3_hash from src/ops.rs lines 129-134: shake mutates
the data buffer in place (delimiter appended) and the digest is stored; the
match panics for d outside the four listed strengths. -/
def compute_sha3_hash (d : Nat) (m : Message) : Option Message :=
  if d = 224 ∨ d = 256 ∨ d = 384 ∨ d = 512 then
    some { m with msg := (shake m.msg d).1, digest := some (shake m.msg d).2 }
  else none

/-- Operation pw_encrypt from src/ops.rs lines 180-191.  The random draw z of
get_random_bytes(512) is made explicit through the rng parameter. -/
def pw_encrypt (rng : Nat → Nat) (pw : List Nat) (d : Nat) (m : Message) : Option Message :=
  let z := get_random_bytes rng 512
  (kmac_xof (z ++ pw) [] 1024 strS d).bind fun ke_ka =>
    let ke := ke_ka.take 64
    let ka := ke_ka.drop 64
    (kmac_xof ka m.msg 512 strSKA d).bind fun t =>
      (kmac_xof ke [] (m.msg.length * 8) strSKE d).bind fun c =>
        (xor_bytes m.msg c).map fun c' =>
          { m with msg := c', digest := some t, sym_nonce := some z }

/-- Operation pw_decrypt from src/ops.rs lines 217-227.  The stored nonce is
cloned into z_pw before the password is appended; unwrap of a missing nonce
or digest is the none case. -/
def pw_decrypt (pw : List Nat) (d : Nat) (m : Message) : Option Message :=
  m.sym_nonce.bind fun z =>
    (kmac_xof (z ++ pw) [] 1024 strS d).bind fun ke_ka =>
      let ke := ke_ka.take 64
      let ka := ke_ka.drop 64
      (kmac_xof ke [] (m.msg.length * 8) strSKE d).bind fun ks =>
        (xor_bytes m.msg ks).bind fun m' =>
          (kmac_xof ka m' 512 strSKA d).bind fun new_t =>
            m.digest.map fun t =>
              { m with msg := m', op_result := some (t == new_t) }

/-- Scalar computed by KeyPair::new (src/ops.rs lines 250-251): the kmac
output times 4, reduced mod the order of the hardcoded SELECTED_CURVE, not of
the curve argument. -/
def keypair_scalar (pw : List Nat) (d : Nat) : Option Int :=
  (kmac_xof pw [] 512 strK d).map fun kb =>
    (bytes_to_big kb * 4) % order SELECTED_CURVE

/-- Operation KeyPair::new from src/ops.rs lines 249-260: the public point is
the curve argument's generator times the scalar, and priv_key stores the
passphrase bytes. -/
def KeyPair.new (pw : List Nat) (owner : List Nat) (curve : EdCurves) (d : Nat) :
    Option KeyPair :=
  (keypair_scalar pw d).map fun s =>
    { owner := owner, pub_key := pmul (generator curve false) s, priv_key := pw,
      curve := curve }

/-- Operation key_encrypt from src/ops.rs lines 288-303.  The random draw of
get_random_bytes(64) is made explicit through the rng parameter. -/
def key_encrypt (rng : Nat → Nat) (pub_key : EdCurvePoint) (d : Nat) (m : Message) :
    Option Message :=
  let k : Int := (bytes_to_big (get_random_bytes rng 64) * 4) % order pub_key.curve
  let w := pmul pub_key k
  let z := pmul (generator pub_key.curve false) k
  (kmac_xof (big_to_bytes w.x) [] 1024 strPK d).bind fun ke_ka =>
    let ke := ke_ka.take 64
    let ka := ke_ka.drop 64
    (kmac_xof ka m.msg 512 strPKA d).bind fun t =>
      (kmac_xof ke [] (m.msg.length * 8) strPKE d).bind fun c =>
        (xor_bytes m.msg c).map fun c' =>
          { m with msg := c', digest := some t, asym_nonce := some z }

/-- Operation sign from src/ops.rs lines 370-383.  The scalar s is not
reduced; z is computed with the double-remainder pattern (a % b + b) % b,
whose value is the nonnegative remainder for both the truncated remainder of
rug and the Euclidean remainder used here. -/
def sign (key : KeyPair) (d : Nat) (m : Message) : Option Message :=
  (kmac_xof key.priv_key [] 512 strK d).bind fun kb =>
    let s : Int := bytes_to_big kb * 4
    let s_bytes := big_to_bytes s
    (kmac_xof s_bytes m.msg 512 strN d).bind fun nb =>
      let k : Int := bytes_to_big nb * 4
      let u := pmul (generator SELECTED_CURVE false) k
      (kmac_xof (big_to_bytes u.x) m.msg 512 strT d).map fun h =>
        let h_big : Int := bytes_to_big h
        let z := ((k - h_big * s) % u.r + u.r) % u.r
        { m with sig := some { h := h, z := z } }

/-- Operation verify from src/ops.rs lines 399-405; unwrap of a missing
signature is the none case. -/
def verify (pub_key : EdCurvePoint) (d : Nat) (m : Message) : Option Message :=
  m.sig.bind fun sg =>
    let u0 := pmul (generator pub_key.curve false) sg.z
    let hv := pmul pub_key (bytes_to_big sg.h)
    let u := padd u0 hv
    (kmac_xof (big_to_bytes u.x) m.msg 512 strT d).map fun h_p =>
      { m with op_result := some (h_p == sg.h) }

end Capy

namespace Capy

/-- Lemma: kmac_xof succeeds with value kmacF on the two accepted strengths. -/
theorem kmac_eq (k x : List Nat) (l : Nat) (s : List Nat) {d : Nat}
    (h : d = 256 ∨ d = 512) : kmac_xof k x l s d = some (kmacF k x l s d) := by
  rcases h with rfl | rfl <;> rfl

/-- Lemma: stateBytes emits 8 bytes per lane. -/
theorem stateBytes_length (st : List Nat) (lanes : Nat) :
    (stateBytes st lanes).length = 8 * lanes := by
  induction lanes with
  | zero => rfl
  | succ n ih => simp [stateBytes, ih, leBytes8]; ring

/-- Lemma: squeezeBlocks emits full rate-sized blocks. -/
theorem squeezeBlocks_length (nb : Nat) : ∀ (st : List Nat) (lanes : Nat),
    (squeezeBlocks st nb lanes).length = nb * (8 * lanes) := by
  induction nb with
  | zero => intro st lanes; simp [squeezeBlocks]
  | succ n ih =>
    intro st lanes
    simp [squeezeBlocks, stateBytes_length, ih]
    ring

/-- Lemma: the squeeze phase emits exactly l/8 bytes. -/
theorem sponge_squeeze_length (st : List Nat) (l r : Nat) (h : 0 < r / 64) :
    (sponge_squeeze st l r).length = l / 8 := by
  unfold sponge_squeeze
  simp only [List.length_take, squeezeBlocks_length]
  apply Nat.min_eq_left
  have hbb : 0 < 8 * (r / 64) := by omega
  have hdm := Nat.div_add_mod (l / 8) (8 * (r / 64))
  have hlt : (l / 8) % (8 * (r / 64)) < 8 * (r / 64) := Nat.mod_lt _ hbb
  calc l / 8 = 8 * (r / 64) * (l / 8 / (8 * (r / 64))) + (l / 8) % (8 * (r / 64)) := hdm.symm
    _ ≤ 8 * (r / 64) * (l / 8 / (8 * (r / 64))) + 8 * (r / 64) := by omega
    _ = (l / 8 / (8 * (r / 64)) + 1) * (8 * (r / 64)) := by ring

/-- Lemma: a kmac output has exactly l/8 bytes. -/
theorem kmacF_length (k x : List Nat) (l : Nat) (s : List Nat) {d : Nat}
    (h : d = 256 ∨ d = 512) : (kmacF k x l s d).length = l / 8 := by
  rcases h with rfl | rfl <;>
    exact sponge_squeeze_length _ _ _ (by norm_num)

/-- Lemma: xor_bytes succeeds on equal lengths. -/
theorem xor_bytes_some {a b : List Nat} (h : a.length = b.length) :
    xor_bytes a b = some (List.zipWith (fun u v => u ^^^ v) a b) := by
  simp [xor_bytes, h]

/-- Lemma: a bytewise XOR preserves the length. -/
theorem zipWith_xor_length {a b : List Nat} (h : a.length = b.length) :
    (List.zipWith (fun u v => u ^^^ v) a b).length = a.length := by
  simp [List.length_zipWith, h]

/-- Lemma: XORing the same stream twice restores the input. -/
theorem zipWith_xor_cancel : ∀ (a b : List Nat), a.length = b.length →
    List.zipWith (fun u v => u ^^^ v) (List.zipWith (fun u v => u ^^^ v) a b) b = a := by
  intro a
  induction a with
  | nil => intro b _; simp
  | cons x xs ih =>
    intro b h
    cases b with
    | nil => simp at h
    | cons y ys =>
      simp only [List.zipWith_cons_cons]
      rw [ih ys (by simpa using h)]
      simp [Nat.xor_cancel_right]

/-- Lemma: the (a % r + r) % r pattern equals the Euclidean remainder. -/
theorem emod_fix (x r : Int) : (x % r + r) % r = x % r := by
  have h1 : (x % r + r) % r = (x % r + r * 1) % r := by ring_nf
  rw [h1, Int.add_mul_emod_self_left, Int.emod_emod_of_dvd _ dvd_rfl]

/-- Lemma: the Schnorr verification scalar reduces to the signing nonce mod r. -/
theorem key_mix (k t c r : Int) :
    ((k - c * t) % r + t % r * c % r) % r = k % r := by
  have h1 : t % r * c % r = t * c % r := by
    rw [Int.mul_emod (t % r) c, Int.emod_emod_of_dvd _ dvd_rfl, ← Int.mul_emod]
  rw [h1, ← Int.add_emod]
  congr 1
  ring

end Capy

namespace Capy

/-- Collapsing a repeated Euclidean remainder. -/
theorem emod_emod (a r : Int) : a % r % r = a % r := Int.emod_emod_of_dvd a dvd_rfl

/-- Claim C10 (confirmed): for every Message and d in {224, 256, 384, 512},
compute_sha3_hash sets the digest field but also mutates the data field in
place: afterwards data equals the original bytes with the SHAKE padding suffix
byte appended (0x86 in the one-byte-of-padding case, 0x06 otherwise). -/
theorem claim_C10 (m : Message) (d : Nat)
    (hd : d = 224 ∨ d = 256 ∨ d = 384 ∨ d = 512) :
    ∃ m', compute_sha3_hash d m = some m' ∧
      m'.msg = m.msg ++ [if 136 - m.msg.length % 136 = 1 then 0x86 else 0x06] ∧
      m'.digest = some (shake m.msg d).2 := by
  unfold compute_sha3_hash
  rw [if_pos hd]
  exact ⟨_, rfl, by simp [shake, shakeDelim], rfl⟩

/-- Claim C8 (confirmed): pw_decrypt clones the stored nonce before appending
the password, so for every well-formed symmetric cryptogram (nonce and digest
present) and accepted d the stored nonce field is left unchanged, and a second
decrypt would derive its keys from the same nonce. -/
theorem claim_C8 (pw : List Nat) (d : Nat) (m : Message) (z t : List Nat)
    (hz : m.sym_nonce = some z) (ht : m.digest = some t) (hd : d = 256 ∨ d = 512) :
    ∃ m', pw_decrypt pw d m = some m' ∧ m'.sym_nonce = m.sym_nonce := by
  unfold pw_decrypt
  rw [hz]
  simp only [Option.some_bind]
  rw [kmac_eq _ _ _ _ hd]
  simp only [Option.some_bind]
  rw [kmac_eq _ _ _ _ hd]
  simp only [Option.some_bind]
  rw [xor_bytes_some (by rw [kmacF_length _ _ _ _ hd, Nat.mul_div_cancel _ (by norm_num)])]
  simp only [Option.some_bind]
  rw [kmac_eq _ _ _ _ hd]
  simp only [Option.some_bind]
  rw [ht]
  exact ⟨_, rfl, rfl⟩

/-- Claim C4 (corrected): the scalar of a generated keypair is
(bytes_to_big(KMAC-XOF(pw, [], 512, K, d)) * 4) mod r where r is the order of
the hardcoded SELECTED_CURVE E448 (multiply by 4 first, then reduce),
regardless of the selected curve, and the public point is that scalar times
the selected curve's generator. -/
theorem claim_C4 (pw owner : List Nat) (c : EdCurves) (d : Nat)
    (hd : d = 256 ∨ d = 512) :
    ∃ kp, KeyPair.new pw owner c d = some kp ∧
      keypair_scalar pw d =
        some ((bytes_to_big (kmacF pw [] 512 strK d) * 4) % order SELECTED_CURVE) ∧
      kp.pub_key = pmul (generator c false)
        ((bytes_to_big (kmacF pw [] 512 strK d) * 4) % order SELECTED_CURVE) := by
  unfold KeyPair.new keypair_scalar
  rw [kmac_eq _ _ _ _ hd]
  exact ⟨_, rfl, rfl, rfl⟩

/-- Claim C9 (corrected): immediately after pw_encrypt returns, sym_nonce is
present and holds exactly 512 bytes of randomness, the output of
get_random_bytes(512); the spec's 64-byte figure is wrong. -/
theorem claim_C9 (rng : Nat → Nat) (pw : List Nat) (d : Nat) (m : Message)
    (hd : d = 256 ∨ d = 512) :
    ∃ m', pw_encrypt rng pw d m = some m' ∧
      m'.sym_nonce = some (get_random_bytes rng 512) ∧
      (get_random_bytes rng 512).length = 512 := by
  unfold pw_encrypt
  simp only [kmac_eq _ _ _ _ hd, Option.some_bind]
  have hlen : m.msg.length =
      (kmacF (List.take 64 (kmacF (get_random_bytes rng 512 ++ pw) [] 1024 strS d)) []
        (m.msg.length * 8) strSKE d).length := by
    rw [kmacF_length _ _ _ _ hd]
    exact (Nat.mul_div_cancel _ (by norm_num)).symm
  rw [xor_bytes_some hlen]
  exact ⟨_, rfl, rfl, by simp [get_random_bytes]⟩

end Capy

namespace Capy

/-- Claim C1 (corrected): the symmetric round-trip holds for d in {256, 512}:
pw_encrypt then pw_decrypt under the same password restores the data field and
sets op_result to true.  For d in {224, 384} the claim fails because kmac_xof
panics (see the counterexample). -/
theorem claim_C1 (rng : Nat → Nat) (pw : List Nat) (d : Nat) (m : Message)
    (hd : d = 256 ∨ d = 512) :
    ∃ enc dec, pw_encrypt rng pw d m = some enc ∧ pw_decrypt pw d enc = some dec ∧
      dec.msg = m.msg ∧ dec.op_result = some true := by
  have h8 : (0 : Nat) < 8 := by norm_num
  -- the derived keys and streams
  set z := get_random_bytes rng 512 with hz
  set KK := kmacF (z ++ pw) [] 1024 strS d with hKK
  set T := kmacF (KK.drop 64) m.msg 512 strSKA d with hT
  set C := kmacF (KK.take 64) [] (m.msg.length * 8) strSKE d with hC
  have hClen : m.msg.length = C.length := by
    rw [hC, kmacF_length _ _ _ _ hd]
    exact (Nat.mul_div_cancel _ h8).symm
  have henc : pw_encrypt rng pw d m =
      some { m with
              msg := List.zipWith (fun u v => u ^^^ v) m.msg C
              digest := some T
              sym_nonce := some z } := by
    unfold pw_encrypt
    simp only [kmac_eq _ _ _ _ hd, Option.some_bind, ← hz, ← hKK, ← hT, ← hC]
    rw [xor_bytes_some hClen]
    rfl
  have hdec : pw_decrypt pw d
      { m with
          msg := List.zipWith (fun u v => u ^^^ v) m.msg C
          digest := some T
          sym_nonce := some z } =
      some { m with
              digest := some T
              sym_nonce := some z
              op_result := some (T == T) } := by
    unfold pw_decrypt
    simp only [Option.some_bind, kmac_eq _ _ _ _ hd]
    simp only [zipWith_xor_length hClen, ← hKK, ← hC]
    rw [xor_bytes_some (by rw [zipWith_xor_length hClen, hClen])]
    simp only [Option.some_bind, zipWith_xor_cancel m.msg C hClen, ← hT]
    rfl
  exact ⟨_, _, henc, hdec, rfl, by simp⟩

end Capy

namespace Capy

/-- Claim C3 (confirmed): after key_encrypt at an accepted d, the data field
equals the plaintext XORed with KMAC-XOF(ke, [], 8 times the length, PKE, d),
where ke is the first 64 bytes of KMAC-XOF(W.x, [], 1024, PK, d) and
W = k times the public key; the keystream XOR is applied to the stored bytes. -/
theorem claim_C3 (rng : Nat → Nat) (V : EdCurvePoint) (d : Nat) (m : Message)
    (hd : d = 256 ∨ d = 512) :
    ∃ m', key_encrypt rng V d m = some m' ∧
      m'.msg = List.zipWith (fun u v => u ^^^ v) m.msg
        (kmacF ((kmacF (big_to_bytes
            (pmul V ((bytes_to_big (get_random_bytes rng 64) * 4) % order V.curve)).x)
          [] 1024 strPK d).take 64) [] (m.msg.length * 8) strPKE d) := by
  set C := kmacF ((kmacF (big_to_bytes
      (pmul V ((bytes_to_big (get_random_bytes rng 64) * 4) % order V.curve)).x)
    [] 1024 strPK d).take 64) [] (m.msg.length * 8) strPKE d with hC
  have hClen : m.msg.length = C.length := by
    rw [hC, kmacF_length _ _ _ _ hd]
    exact (Nat.mul_div_cancel _ (by norm_num)).symm
  unfold key_encrypt
  simp only [kmac_eq _ _ _ _ hd, Option.some_bind, ← hC]
  rw [xor_bytes_some hClen]
  exact ⟨_, rfl, rfl⟩

/-- Claim C2 (corrected): the Schnorr round-trip holds for keypairs derived
on the hardcoded SELECTED_CURVE E448 with d in {256, 512}: signing with the
keypair and verifying the resulting signature against its public key sets
op_result to true.  Keypairs on E521 fail verification because sign always
uses the E448 generator and order (see the counterexample), and d in
{224, 384} panics. -/
theorem claim_C2 (pw owner : List Nat) (d : Nat) (m : Message)
    (hd : d = 256 ∨ d = 512) :
    ∃ kp sm vm, KeyPair.new pw owner SELECTED_CURVE d = some kp ∧
      sign kp d m = some sm ∧ verify kp.pub_key d sm = some vm ∧
      vm.op_result = some true := by
  set r : Int := order SELECTED_CURVE with hr
  set K : Int := bytes_to_big (kmacF pw [] 512 strK d) with hK
  set NB := kmacF (big_to_bytes (K * 4)) m.msg 512 strN d with hNB
  set kk : Int := bytes_to_big NB * 4 with hkk
  set H := kmacF (big_to_bytes ((1 * kk) % r)) m.msg 512 strT d with hH
  set hb : Int := bytes_to_big H with hhb
  set Z : Int := ((kk - hb * (K * 4)) % r + r) % r with hZ
  have hkp : KeyPair.new pw owner SELECTED_CURVE d =
      some { owner := owner
             pub_key := pmul (generator SELECTED_CURVE false) ((K * 4) % r)
             priv_key := pw
             curve := SELECTED_CURVE } := by
    unfold KeyPair.new keypair_scalar
    rw [kmac_eq _ _ _ _ hd]
    rfl
  have hsm : sign { owner := owner
                    pub_key := pmul (generator SELECTED_CURVE false) ((K * 4) % r)
                    priv_key := pw
                    curve := SELECTED_CURVE } d m =
      some { m with sig := some { h := H, z := Z } } := by
    unfold sign
    simp only [kmac_eq _ _ _ _ hd, Option.some_bind, Option.map_some']
    rfl
  have hx : ((1 * Z) % r + ((1 * ((K * 4) % r)) % r * hb) % r) % r = (1 * kk) % r := by
    simp only [one_mul, hZ, emod_fix, emod_emod]
    exact key_mix kk (K * 4) hb r
  have hver : verify (pmul (generator SELECTED_CURVE false) ((K * 4) % r)) d
      { m with sig := some { h := H, z := Z } } =
      some { m with sig := some { h := H, z := Z }, op_result := some (H == H) } := by
    have hgen : generator SELECTED_CURVE false = { curve := SELECTED_CURVE, k := 1 } := rfl
    unfold verify
    simp only [Option.some_bind, Option.map_some']
    simp only [hgen, padd, pmul, EdCurvePoint.x, ← hhb, ← hr]
    rw [hx]
    simp only [kmac_eq _ _ _ _ hd, ← hH, Option.map_some']
  exact ⟨_, _, _, hkp, hsm, hver, by simp⟩

end Capy

namespace Capy

/-- Claim C7 (corrected): cshake and kmac_xof fail with a parameter error
exactly when d is outside {256, 512}; the strengths 224 and 384 named by the
claim are also rejected. -/
theorem claim_C7 (k x : List Nat) (l : Nat) (n s : List Nat) (d : Nat) :
    ((cshake x l n s d).isNone ↔ ¬(d = 256 ∨ d = 512)) ∧
    ((kmac_xof k x l s d).isNone ↔ ¬(d = 256 ∨ d = 512)) := by
  by_cases h1 : d = 256
  · subst h1; simp [cshake, kmac_xof, wlookup]
  · by_cases h2 : d = 512
    · subst h2; simp [cshake, kmac_xof, wlookup]
    · simp [cshake, kmac_xof, wlookup, h1, h2]

set_option maxRecDepth 100000 in
/-- Counterexample for claim C7 as stated: at d = 224, inside the claimed
accepted set, both cshake and kmac_xof fail with the parameter error. -/
theorem claim_C7_cx :
    (cshake [] 256 [] [] 224).isNone = true ∧ (kmac_xof [] [] 256 [] 224).isNone = true := by
  decide

set_option maxRecDepth 100000 in
/-- Claim C6 (code bug): evaluation of right_encode at the failing input 1.
The code returns [2, 0] instead of the value bytes followed by the length
byte, [1, 1]; for 0 it returns [0, 1] as the claim states. -/
theorem claim_C6_eval : right_encode 1 = [2, 0] ∧ right_encode 0 = [0, 1] := by
  decide

set_option maxRecDepth 1000000 in
set_option maxHeartbeats 2000000 in
/-- Claim C5 (code bug): at x = [], L = 256, d = 512 with empty N and S,
cshake does not return the output of shake(x, L): the missing return makes it
run the byte_pad prefix path on the shake-mutated x instead. -/
theorem claim_C5_cx : cshake [] 256 [] [] 512 ≠ some (shake [] 256).2 := by
  decide

set_option maxRecDepth 100000 in
/-- Counterexample for claim C1 as stated: at d = 224, a value the claim
includes, pw_encrypt panics on the bytepad-width match instead of producing a
cryptogram, so the round-trip property fails. -/
theorem claim_C1_cx : pw_encrypt (fun _ => 0) [] 224 (Message.new []) = none := by
  decide

set_option maxRecDepth 100000 in
/-- Counterexample for claim C9 as stated: after pw_encrypt on an empty
message at d = 512 the stored nonce does not have 64 bytes (it has 512). -/
theorem claim_C9_cx :
    ((pw_encrypt (fun _ => 0) [] 512 (Message.new [])).map
      (fun m' => (m'.sym_nonce.getD []).length)) ≠ some 64 := by
  decide

end Capy

namespace Capy

set_option maxRecDepth 1000000 in
set_option maxHeartbeats 4000000 in
/-- Evaluation lemma: the K-domain kmac of the empty passphrase at d = 512. -/
theorem litK_eval : kmacF [] [] 512 strK 512 =
    [60, 189, 0, 67, 175, 197, 19, 52, 4, 92, 106, 161, 13, 191, 183, 202, 186, 113, 96, 120, 100,
      137, 175, 195, 74, 185, 237, 213, 53, 61, 6, 5, 72, 106, 83, 196, 136, 99, 12, 141, 135,
      12, 129, 3, 105, 86, 94, 100, 123, 175, 191, 217, 245, 110, 137, 39, 60, 60, 50, 145, 163,
      6, 115, 3] := by
  decide

set_option maxRecDepth 1000000 in
/-- Evaluation lemma: the signing scalar s, four times the kmac output. -/
theorem litS_eval : bytes_to_big
    [60, 189, 0, 67, 175, 197, 19, 52, 4, 92, 106, 161, 13, 191, 183, 202, 186, 113, 96, 120, 100,
      137, 175, 195, 74, 185, 237, 213, 53, 61, 6, 5, 72, 106, 83, 196, 136, 99, 12, 141, 135,
      12, 129, 3, 105, 86, 94, 100, 123, 175, 191, 217, 245, 110, 137, 39, 60, 60, 50, 145, 163,
      6, 115, 3] * 4 =
    12724488485746470126647907005599808202402796910405920436905243854540653769233274972322511374868896216161365357719414003666124040545965152733422256123399180 := by
  decide


set_option maxRecDepth 1000000 in
/-- Counterexample for claim C4 as stated: for pw = [] and selected curve
E521 at d = 512, the scalar computed by KeyPair::new is not the kmac output
times 4 reduced mod the order of that same curve E521, because the code
reduces mod the order of the hardcoded E448. -/
theorem claim_C4_cx :
    keypair_scalar [] 512 ≠
      some ((bytes_to_big (kmacF [] [] 512 strK 512) * 4) % order EdCurves.E521) := by
  unfold keypair_scalar
  rw [kmac_eq [] [] 512 strK (Or.inr rfl), litK_eval]
  rw [Option.map_some']
  try simp only []
  rw [litS_eval]
  decide

set_option maxRecDepth 1000000 in
set_option maxHeartbeats 4000000 in
/-- Counterexample for claim C2 as stated: at d = 224, a strength inside the
claimed supported set, the first kmac_xof call of sign hits the bytepad-width
match and panics, so signing the empty message with a keypair derived from
the empty passphrase yields no signature at all and the round trip cannot set
op_result to true. -/
theorem claim_C2_cx :
    ((KeyPair.new [] [] EdCurves.E448 512).bind fun kp =>
      (sign kp 224 (Message.new [])).bind fun sm =>
        (verify kp.pub_key 224 sm).bind fun vm => vm.op_result) = none := by
  decide

end Capy


namespace Capy

/-- Witness for claim C1 on the empty message with empty password, d = 256. -/
theorem claim_C1_witness :
    ((256 : Nat) = 256 ∨ (256 : Nat) = 512) ∧
    (∃ enc dec, pw_encrypt (fun _ => 0) [] 256 (Message.new []) = some enc ∧
      pw_decrypt [] 256 enc = some dec ∧ dec.msg = (Message.new []).msg ∧
      dec.op_result = some true) :=
  ⟨Or.inl rfl, claim_C1 (fun _ => 0) [] 256 (Message.new []) (Or.inl rfl)⟩

/-- Witness for claim C2 with empty passphrase on message [1] at d = 512. -/
theorem claim_C2_witness :
    ((512 : Nat) = 256 ∨ (512 : Nat) = 512) ∧
    (∃ kp sm vm, KeyPair.new [] [] SELECTED_CURVE 512 = some kp ∧
      sign kp 512 (Message.new [1]) = some sm ∧ verify kp.pub_key 512 sm = some vm ∧
      vm.op_result = some true) :=
  ⟨Or.inr rfl, claim_C2 [] [] 512 (Message.new [1]) (Or.inr rfl)⟩

/-- Witness for claim C3 on the empty message at d = 512. -/
theorem claim_C3_witness :
    ((512 : Nat) = 256 ∨ (512 : Nat) = 512) ∧
    (∃ m', key_encrypt (fun _ => 0) { curve := EdCurves.E448, k := 1 } 512
        (Message.new []) = some m' ∧
      m'.msg = List.zipWith (fun u v => u ^^^ v) (Message.new []).msg
        (kmacF ((kmacF (big_to_bytes
            (pmul { curve := EdCurves.E448, k := 1 }
              ((bytes_to_big (get_random_bytes (fun _ => 0) 64) * 4) %
                order ({ curve := EdCurves.E448, k := 1 } : EdCurvePoint).curve)).x)
          [] 1024 strPK 512).take 64) [] ((Message.new []).msg.length * 8) strPKE 512)) :=
  ⟨Or.inr rfl, claim_C3 (fun _ => 0) { curve := EdCurves.E448, k := 1 } 512
    (Message.new []) (Or.inr rfl)⟩

/-- Witness for claim C4 with pw = [], curve E521, d = 512. -/
theorem claim_C4_witness :
    ((512 : Nat) = 256 ∨ (512 : Nat) = 512) ∧
    (∃ kp, KeyPair.new [] [] EdCurves.E521 512 = some kp ∧
      keypair_scalar [] 512 =
        some ((bytes_to_big (kmacF [] [] 512 strK 512) * 4) % order SELECTED_CURVE) ∧
      kp.pub_key = pmul (generator EdCurves.E521 false)
        ((bytes_to_big (kmacF [] [] 512 strK 512) * 4) % order SELECTED_CURVE)) :=
  ⟨Or.inr rfl, claim_C4 [] [] EdCurves.E521 512 (Or.inr rfl)⟩

/-- Witness for claim C8 on an empty cryptogram with password [] at d = 256. -/
theorem claim_C8_witness :
    ((Message.mk [] (some []) (some []) none none none).sym_nonce = some [] ∧
     (Message.mk [] (some []) (some []) none none none).digest = some [] ∧
     ((256 : Nat) = 256 ∨ (256 : Nat) = 512)) ∧
    (∃ m', pw_decrypt [] 256 (Message.mk [] (some []) (some []) none none none) = some m' ∧
      m'.sym_nonce = (Message.mk [] (some []) (some []) none none none).sym_nonce) :=
  ⟨⟨rfl, rfl, Or.inl rfl⟩,
    claim_C8 [] 256 (Message.mk [] (some []) (some []) none none none) [] [] rfl rfl
      (Or.inl rfl)⟩

/-- Witness for claim C9 with the identity byte source at d = 512. -/
theorem claim_C9_witness :
    ((512 : Nat) = 256 ∨ (512 : Nat) = 512) ∧
    (∃ m', pw_encrypt (fun i => i) [] 512 (Message.new [7]) = some m' ∧
      m'.sym_nonce = some (get_random_bytes (fun i => i) 512) ∧
      (get_random_bytes (fun i => i) 512).length = 512) :=
  ⟨Or.inr rfl, claim_C9 (fun i => i) [] 512 (Message.new [7]) (Or.inr rfl)⟩

/-- Witness for claim C10 at d = 512 on the message [1, 2, 3]. -/
theorem claim_C10_witness :
    ((512 : Nat) = 224 ∨ (512 : Nat) = 256 ∨ (512 : Nat) = 384 ∨ (512 : Nat) = 512) ∧
    (∃ m', compute_sha3_hash 512 (Message.new [1, 2, 3]) = some m' ∧
      m'.msg = (Message.new [1, 2, 3]).msg ++
        [if 136 - (Message.new [1, 2, 3]).msg.length % 136 = 1 then 0x86 else 0x06] ∧
      m'.digest = some (shake (Message.new [1, 2, 3]).msg 512).2) :=
  ⟨by decide, claim_C10 (Message.new [1, 2, 3]) 512 (by decide)⟩

end Capy
